import Mathlib

/-!
Verification of the Uniswap V2 arbitrage simulator.

The Python source (`uniswap_arb.py`, `uniswap_benchmark.py`) is embedded
shallowly: the mutable `UniswapPool` class becomes a structure, mutating
methods become pure functions returning the updated pool, and Python's
`raise ValueError(...)` becomes `Except Err`.  Python floats are modelled
by exact rationals `ℚ`; Python float division by zero, which raises
`ZeroDivisionError`, is modelled by the fallible `pydiv`.
-/

/-- The two tokens a pool holds: `X` is DAI (base), `Y` is ETH (quote). -/
inductive Token where
  | DAI
  | ETH
deriving DecidableEq, Repr

/-- Error kinds, one per distinct `raise` in the source (spec §7 taxonomy),
plus Python's `ZeroDivisionError`. -/
inductive Err where
  | invalidReserves
  | invalidToken
  | invalidAmount
  | ratioMismatch
  | noArbitrage
  | zeroDivision
deriving DecidableEq, Repr

/-- Python float division: raises `ZeroDivisionError` when the divisor is `0`. -/
def pydiv (a b : ℚ) : Except Err ℚ :=
  if b = 0 then .error .zeroDivision else .ok (a / b)

/-- The `UniswapPool` object state: reserves `X` (DAI) and `Y` (ETH), the
invariant `K`, and the swap fee (set to `0.003` by `__init__`). -/
structure UniswapPool where
  X : ℚ
  Y : ℚ
  K : ℚ
  swap_fee : ℚ
deriving DecidableEq, Repr

/-- The constructor `UniswapPool.__init__`: rejects non-positive reserves, sets `K = X*Y`
and `swap_fee = 0.003`. -/
def UniswapPool.init (X Y : ℚ) : Except Err UniswapPool :=
  if X ≤ 0 ∨ Y ≤ 0 then .error .invalidReserves
  else .ok { X := X, Y := Y, K := X * Y, swap_fee := 3/1000 }

/-- Method `UniswapPool.add_liquidity`: the ratio check `X/Y != self.X/self.Y`
runs first (Python evaluates both divisions, raising `ZeroDivisionError`
on a zero denominator), then the positivity check. -/
def UniswapPool.add_liquidity (p : UniswapPool) (X Y : ℚ) : Except Err UniswapPool := do
  let r1 ← pydiv X Y
  let r2 ← pydiv p.X p.Y
  if r1 ≠ r2 then
    .error .ratioMismatch
  else if X ≤ 0 ∨ Y ≤ 0 then
    .error .invalidAmount
  else
    .ok { X := p.X + X, Y := p.Y + Y, K := (p.X + X) * (p.Y + Y), swap_fee := p.swap_fee }

/-- Method `UniswapPool.remove_liquidity`: same checks as `add_liquidity`, then
subtracts the amounts; nothing checks that the resulting reserves stay
positive. -/
def UniswapPool.remove_liquidity (p : UniswapPool) (X Y : ℚ) : Except Err UniswapPool := do
  let r1 ← pydiv X Y
  let r2 ← pydiv p.X p.Y
  if r1 ≠ r2 then
    .error .ratioMismatch
  else if X ≤ 0 ∨ Y ≤ 0 then
    .error .invalidAmount
  else
    .ok { X := p.X - X, Y := p.Y - Y, K := (p.X - X) * (p.Y - Y), swap_fee := p.swap_fee }

/-- Method `UniswapPool.output`: effective input after fee, then the
constant-product output amount. -/
def UniswapPool.output (p : UniswapPool) (input_token : Token) (di : ℚ) : ℚ :=
  let fees := p.swap_fee * di
  let di2 := di - fees
  match input_token with
  | .DAI => p.Y - p.K / (p.X + di2)
  | .ETH => p.X - p.K / (p.Y + di2)

/-- Method `UniswapPool.swap`: rejects non-positive input, then moves tokens and
recomputes `K`; returns the output amount together with the mutated pool. -/
def UniswapPool.swap (p : UniswapPool) (input_token : Token) (input_amount : ℚ) :
    Except Err (ℚ × UniswapPool) :=
  if input_amount ≤ 0 then .error .invalidAmount
  else
    match input_token with
    | .DAI =>
      let output_amount := p.output .DAI input_amount
      let X2 := p.X + input_amount
      let Y2 := p.Y - output_amount
      .ok (output_amount, { X := X2, Y := Y2, K := X2 * Y2, swap_fee := p.swap_fee })
    | .ETH =>
      let output_amount := p.output .ETH input_amount
      let Y2 := p.Y + input_amount
      let X2 := p.X - output_amount
      .ok (output_amount, { X := X2, Y := Y2, K := X2 * Y2, swap_fee := p.swap_fee })

/-- The objective `simulate_arb(dy, ax, ay, bx, by, sign)`: builds the two pools, routes
`dy` ETH through the pool whose ETH/DAI price is lower and the output DAI
through the other, and returns `sign * (final ETH − dy)`; raises when the
two prices are exactly equal. -/
def simulate_arb (dy ax ay bx by_ sign : ℚ) : Except Err ℚ := do
  let pool_a ← UniswapPool.init ax ay
  let pool_b ← UniswapPool.init bx by_
  let a_price := pool_a.Y / pool_a.X
  let b_price := pool_b.Y / pool_b.X
  if b_price > a_price then
    let r1 ← pool_a.swap .ETH dy
    let r2 ← pool_b.swap .DAI r1.1
    return sign * (r2.1 - dy)
  else if a_price > b_price then
    let r1 ← pool_b.swap .ETH dy
    let r2 ← pool_a.swap .DAI r1.1
    return sign * (r2.1 - dy)
  else
    .error .noArbitrage

/-- The function `upper_bound(row)` from `uniswap_benchmark.py`; the same expression is
inlined in `optimal_profit` (lines 160–162 of `uniswap_arb.py`). -/
def upper_bound (ax ay bx by_ : ℚ) : ℚ :=
  let a := ax + ay
  let b := bx + by_
  let total := a + b
  b/total * |ax - ay| + a/total * |bx - by_|

/-- The search upper bound exactly as the spec words it (§4.3):
`totalA = baseA + quoteA`, `totalB = baseB + quoteB`, `total = totalA + totalB`,
`upperBound = (totalB/total) * |baseA − quoteA| + (totalA/total) * |baseB − quoteB|`. -/
def spec_upper_bound (baseA quoteA baseB quoteB : ℚ) : ℚ :=
  let totalA := baseA + quoteA
  let totalB := baseB + quoteB
  let total := totalA + totalB
  (totalB/total) * |baseA - quoteA| + (totalA/total) * |baseB - quoteB|

/-- Result of a `scipy.optimize.minimize` call: `x` is `res.x[0]`, `val` is
`res.fun`. -/
structure MinResult where
  x : ℚ
  val : ℚ
deriving DecidableEq, Repr

/-- An abstract bounded scalar optimizer standing for `scipy.optimize.minimize`:
it receives the objective, the starting point `x0` and the closed bounds,
and is otherwise arbitrary (but deterministic, as `minimize` is). -/
def Optimizer : Type :=
  (ℚ → Except Err ℚ) → ℚ → ℚ → ℚ → MinResult

/-- Pool labels used in the reported trade direction. -/
inductive PoolLabel where
  | A
  | B
deriving DecidableEq, Repr

/-- What `optimal_profit` decides and reports: `found` is its `1`/`0` return
value, `eth_in`/`eth_profit` are the printed trade size and profit, and
`buy`/`sell` are the printed direction labels `b`/`s`. -/
structure TradeReport where
  found : Bool
  eth_in : ℚ
  eth_profit : ℚ
  buy : PoolLabel
  sell : PoolLabel
deriving DecidableEq, Repr

/-- The search `optimal_profit(ax, ay, bx, by)`, parametrized by the optimizer `opt`
standing for `scipy.optimize.minimize`: validates reserves, rejects equal
prices, derives the search interval `[1e-5, upper]`, runs the optimizer on
`simulate_arb(·, ax, ay, bx, by, -1)` from `midpoint = upper/2`, and turns
the result into a report. -/
def optimal_profit (opt : Optimizer) (ax ay bx by_ : ℚ) : Except Err TradeReport :=
  if ax ≤ 0 ∨ ay ≤ 0 ∨ bx ≤ 0 ∨ by_ ≤ 0 then .error .invalidReserves
  else if ay/ax = by_/bx then .error .noArbitrage
  else
    let a := ax + ay
    let b := bx + by_
    let total := a + b
    let lower := 1/100000
    let upper := b/total * |ax - ay| + a/total * |bx - by_|
    let midpoint := upper/2
    let bs : PoolLabel × PoolLabel :=
      if by_/bx > ay/ax then (.A, .B) else (.B, .A)
    let res := opt (fun d => simulate_arb d ax ay bx by_ (-1)) midpoint lower upper
    let eth_in := res.x
    let eth_profit := -res.val
    if eth_profit ≤ 0 then
      .ok { found := false, eth_in := eth_in, eth_profit := eth_profit,
            buy := bs.1, sell := bs.2 }
    else
      .ok { found := true, eth_in := eth_in, eth_profit := eth_profit,
            buy := bs.1, sell := bs.2 }

/-- The token on the other side of a swap. -/
def Token.other : Token → Token
  | .DAI => .ETH
  | .ETH => .DAI

/-! ### Helper lemmas -/

/-- Core invariant-growth step: with positive reserves, a positive input `d`
and a fee `0 < f < 1`, the product of the post-swap reserves exceeds `X*Y`.
The second factor is the post-swap output-side reserve exactly as `swap`
computes it from `output`. -/
lemma invariant_step (X Y d f : ℚ) (hX : 0 < X) (hY : 0 < Y) (hd : 0 < d)
    (hf0 : 0 < f) (hf1 : f < 1) :
    X * Y < (X + d) * (Y - (Y - X * Y / (X + (d - f * d)))) := by
  have hD : 0 < X + (d - f * d) := by nlinarith
  have h1 : Y - (Y - X * Y / (X + (d - f * d))) = X * Y / (X + (d - f * d)) := by ring
  rw [h1, ← mul_div_assoc, lt_div_iff hD]
  nlinarith [mul_pos (mul_pos (mul_pos hX hY) hd) hf0]

/-- With positive reserves, `K = X*Y` and `f < 1`, the output of a swap of a
positive amount is strictly positive. -/
lemma output_pos (p : UniswapPool) (t : Token) (d : ℚ)
    (hX : 0 < p.X) (hY : 0 < p.Y) (hK : p.K = p.X * p.Y)
    (hf1 : p.swap_fee < 1) (hd : 0 < d) :
    0 < p.output t d := by
  have h1 : 0 < d - p.swap_fee * d := by nlinarith
  cases t with
  | DAI =>
    have hD : 0 < p.X + (d - p.swap_fee * d) := by linarith
    have : p.K / (p.X + (d - p.swap_fee * d)) < p.Y := by
      rw [div_lt_iff hD, hK]
      nlinarith
    simpa [UniswapPool.output] using this
  | ETH =>
    have hD : 0 < p.Y + (d - p.swap_fee * d) := by linarith
    have : p.K / (p.Y + (d - p.swap_fee * d)) < p.X := by
      rw [div_lt_iff hD, hK]
      nlinarith
    simpa [UniswapPool.output] using this

/-- A swap of a positive amount always succeeds and returns
`p.output t d` together with the updated pool. -/
lemma swap_ok (p : UniswapPool) (t : Token) (d : ℚ) (hd : 0 < d) :
    p.swap t d = Except.ok (p.output t d,
      match t with
      | .DAI => { X := p.X + d, Y := p.Y - p.output .DAI d,
                  K := (p.X + d) * (p.Y - p.output .DAI d), swap_fee := p.swap_fee }
      | .ETH => { X := p.X - p.output .ETH d, Y := p.Y + d,
                  K := (p.X - p.output .ETH d) * (p.Y + d), swap_fee := p.swap_fee }) := by
  cases t <;> simp [UniswapPool.swap, not_le.mpr hd]

/-! ### C1: swap formula exactness -/

/-- C1. For every pool with reserves `(X, Y)` (positive), invariant `K = X*Y`
and fee `f = 0.003`, and every input `d > 0`, a DAI swap outputs
`Y - (X*Y)/(X + d*(1-f))` and an ETH swap outputs `X - (X*Y)/(Y + d*(1-f))`. -/
theorem C1_swap_formula (p : UniswapPool) (d : ℚ)
    (hX : 0 < p.X) (hY : 0 < p.Y) (hK : p.K = p.X * p.Y)
    (hf : p.swap_fee = 3/1000) (hd : 0 < d) :
    (p.swap Token.DAI d).map Prod.fst =
      Except.ok (p.Y - p.X * p.Y / (p.X + d * (1 - 3/1000))) ∧
    (p.swap Token.ETH d).map Prod.fst =
      Except.ok (p.X - p.X * p.Y / (p.Y + d * (1 - 3/1000))) := by
  have h1 : d - 3/1000 * d = d * (1 - 3/1000) := by ring
  constructor <;>
    simp [UniswapPool.swap, UniswapPool.output, Except.map, not_le.mpr hd, hK, hf, h1]

/-- Witness for C1 at the pool `(X, Y) = (10, 10)` and `d = 1`. -/
theorem C1_swap_formula_witness :
    (UniswapPool.swap ⟨10, 10, 100, 3/1000⟩ Token.DAI 1).map Prod.fst =
      Except.ok ((10 : ℚ) - 10 * 10 / (10 + 1 * (1 - 3/1000))) :=
  (C1_swap_formula ⟨10, 10, 100, 3/1000⟩ 1 (by norm_num) (by norm_num)
    (by norm_num) (by norm_num) (by norm_num)).1

/-! ### C2: the invariant strictly increases across successful swaps -/

/-- C2. For every pool with positive reserves, `K = X*Y` and fee rate in
`(0, 1)` (the code fixes `0.003`), every successful swap strictly increases
the invariant, and the stored `K` of the result is the recomputed product of
the new reserves.  (Every successful swap has a positive input amount, since
`swap` rejects `input_amount ≤ 0`, so the increase is always strict.) -/
theorem C2_invariant_increases (p : UniswapPool) (t : Token) (d out : ℚ)
    (p' : UniswapPool)
    (hX : 0 < p.X) (hY : 0 < p.Y) (hK : p.K = p.X * p.Y)
    (hf0 : 0 < p.swap_fee) (hf1 : p.swap_fee < 1)
    (hs : p.swap t d = Except.ok (out, p')) :
    p.K < p'.K ∧ p'.K = p'.X * p'.Y := by
  by_cases hd : d ≤ 0
  · simp [UniswapPool.swap, hd] at hs
  · push_neg at hd
    rw [swap_ok p t d hd] at hs
    cases t with
    | DAI =>
      simp only [Except.ok.injEq, Prod.mk.injEq] at hs
      obtain ⟨-, hp⟩ := hs
      subst hp
      refine ⟨?_, rfl⟩
      simpa [UniswapPool.output, hK] using
        invariant_step p.X p.Y d p.swap_fee hX hY hd hf0 hf1
    | ETH =>
      simp only [Except.ok.injEq, Prod.mk.injEq] at hs
      obtain ⟨-, hp⟩ := hs
      subst hp
      refine ⟨?_, rfl⟩
      have h2 := invariant_step p.Y p.X d p.swap_fee hY hX hd hf0 hf1
      rw [mul_comm p.Y p.X] at h2
      simp only [UniswapPool.output]
      rw [hK]
      nlinarith [h2]

/-! ### C3: positivity of reserves across operations -/

/-- C3 counterexample. `remove_liquidity` does *not* fail when the removal
empties the pool: removing `(10, 10)` from the pool `(10, 10)` passes the
ratio and amount checks and completes, leaving both reserves at `0` — a
zero resulting reserve, which the claim says can never happen. -/
theorem C3_counterexample :
    UniswapPool.remove_liquidity ⟨10, 10, 100, 3/1000⟩ 10 10 =
      Except.ok ⟨0, 0, 0, 3/1000⟩ ∧
    (UniswapPool.mk 0 0 0 (3/1000)).X ≤ 0 := by
  refine ⟨?_, le_refl 0⟩
  norm_num [UniswapPool.remove_liquidity, pydiv, Bind.bind, Except.bind]

/-- C3 amended. For a pool with strictly positive reserves, `K = X*Y` and
fee `< 1`: every successful `swap` and every successful `add_liquidity`
leaves both reserves strictly positive (and a failing operation returns an
error without any mutated state), but `remove_liquidity` checks only the
ratio and the positivity of the *removed amounts*: removing exactly the
current reserves completes with both reserves `0`, and in general it
succeeds iff the quote amount is nonzero, the ratio matches, and both
amounts are positive — regardless of the sign of the resulting reserves. -/
theorem C3_reserve_positivity (p : UniswapPool)
    (hX : 0 < p.X) (hY : 0 < p.Y) (hK : p.K = p.X * p.Y)
    (hf1 : p.swap_fee < 1) :
    (∀ t d o q, p.swap t d = Except.ok (o, q) → 0 < q.X ∧ 0 < q.Y) ∧
    (∀ dX dY q, p.add_liquidity dX dY = Except.ok q → 0 < q.X ∧ 0 < q.Y) ∧
    p.remove_liquidity p.X p.Y = Except.ok ⟨0, 0, 0, p.swap_fee⟩ ∧
    (∀ dX dY, (∃ q, p.remove_liquidity dX dY = Except.ok q) ↔
      dY ≠ 0 ∧ dX / dY = p.X / p.Y ∧ 0 < dX ∧ 0 < dY) := by
  refine ⟨?_, ?_, ?_, ?_⟩
  · intro t d o q hs
    by_cases hd : d ≤ 0
    · simp [UniswapPool.swap, hd] at hs
    · push_neg at hd
      have hdi : 0 < d - p.swap_fee * d := by nlinarith
      rw [swap_ok p t d hd] at hs
      cases t with
      | DAI =>
        simp only [Except.ok.injEq, Prod.mk.injEq] at hs
        obtain ⟨-, hq⟩ := hs
        subst hq
        refine ⟨by simpa using by linarith, ?_⟩
        have h1 : p.Y - p.output .DAI d = p.K / (p.X + (d - p.swap_fee * d)) := by
          simp [UniswapPool.output]
        simp only [h1]
        exact div_pos (by rw [hK]; positivity) (by linarith)
      | ETH =>
        simp only [Except.ok.injEq, Prod.mk.injEq] at hs
        obtain ⟨-, hq⟩ := hs
        subst hq
        refine ⟨?_, by simpa using by linarith⟩
        have h1 : p.X - p.output .ETH d = p.K / (p.Y + (d - p.swap_fee * d)) := by
          simp [UniswapPool.output]
        simp only [h1]
        exact div_pos (by rw [hK]; positivity) (by linarith)
  · intro dX dY q hs
    by_cases h0 : dY = 0
    · simp [UniswapPool.add_liquidity, pydiv, h0, Bind.bind, Except.bind] at hs
    · simp only [UniswapPool.add_liquidity, pydiv, Bind.bind, Except.bind,
        h0, hY.ne', if_false] at hs
      split_ifs at hs with h1 h2
      · push_neg at h2
        simp only [Except.ok.injEq] at hs
        subst hs
        exact ⟨(by linarith [h2.1] : (0:ℚ) < p.X + dX),
               (by linarith [h2.2] : (0:ℚ) < p.Y + dY)⟩
  · simp [UniswapPool.remove_liquidity, pydiv, Bind.bind, Except.bind,
      hY.ne', hX.not_le, hY.not_le, sub_self]
  · intro dX dY
    by_cases h0 : dY = 0
    · simp [UniswapPool.remove_liquidity, pydiv, h0, Bind.bind, Except.bind]
    · simp only [UniswapPool.remove_liquidity, pydiv, Bind.bind, Except.bind,
        h0, hY.ne', if_false]
      split_ifs with h1 h2
      · simp [h0, h1]
      · simp only [not_not] at h1
        constructor
        · rintro ⟨q, hq⟩
          simp at hq
        · rintro ⟨-, -, h3, h4⟩
          rcases h2 with h | h <;> linarith
      · simp only [not_not] at h1
        push_neg at h2
        exact ⟨fun _ => ⟨h0, h1, h2.1, h2.2⟩, fun _ => ⟨_, rfl⟩⟩

/-- Witness for C3 (amended) at the pool `(10, 10)`. -/
theorem C3_reserve_positivity_witness :
    UniswapPool.remove_liquidity ⟨10, 10, 100, 3/1000⟩ 10 10 =
      Except.ok ⟨0, 0, 0, 3/1000⟩ :=
  (C3_reserve_positivity ⟨10, 10, 100, 3/1000⟩ (by norm_num) (by norm_num)
    (by norm_num) (by norm_num)).2.2.1

/-! ### C5: equal prices abort the search before any optimization -/

/-- C5. If the two prices are exactly equal at strictly positive input
reserves, `optimal_profit` fails with `NoArbitrage` for *every* optimizer
`opt`: since the result does not depend on `opt`, the optimizer — and hence
the objective — is never consulted (zero objective evaluations). -/
theorem C5_equal_prices_no_search (opt : Optimizer) (ax ay bx by_ : ℚ)
    (hax : 0 < ax) (hay : 0 < ay) (hbx : 0 < bx) (hby : 0 < by_)
    (heq : ay/ax = by_/bx) :
    optimal_profit opt ax ay bx by_ = Except.error Err.noArbitrage := by
  simp [optimal_profit, hax.not_le, hay.not_le, hbx.not_le, hby.not_le, heq]

/-- Witness for C5 at the reserves `(1, 1, 1, 1)` with a concrete optimizer. -/
theorem C5_equal_prices_no_search_witness :
    optimal_profit (fun _ x0 _ _ => ⟨x0, 0⟩) 1 1 1 1 =
      Except.error Err.noArbitrage :=
  C5_equal_prices_no_search (fun _ x0 _ _ => ⟨x0, 0⟩) 1 1 1 1
    (by norm_num) (by norm_num) (by norm_num) (by norm_num) (by norm_num)

/-! ### C4: error behavior of the profit objective `simulate_arb` -/

/-- Holds of `Except` computations that return a value rather than an error. -/
def returnsValue (e : Except Err ℚ) : Bool :=
  match e with
  | .ok _ => true
  | .error _ => false

/-- Evaluation of `UniswapPool.init` on positive reserves. -/
lemma init_ok (X Y : ℚ) (hX : 0 < X) (hY : 0 < Y) :
    UniswapPool.init X Y = Except.ok ⟨X, Y, X * Y, 3/1000⟩ := by
  simp [UniswapPool.init, hX.not_le, hY.not_le]

/-- C4 counterexample. The claim says `simulate_arb` fails with
`InvalidAmount` whenever `d ≤ 0`, but with `d = -1` and equal prices
`(1, 1)`/`(1, 1)` the code raises `NoArbitrage`: the price check runs before
the first `swap`'s amount check. -/
theorem C4_counterexample :
    simulate_arb (-1) 1 1 1 1 1 = Except.error Err.noArbitrage ∧
    Err.noArbitrage ≠ Err.invalidAmount := by
  refine ⟨?_, by simp⟩
  norm_num [simulate_arb, UniswapPool.init, Bind.bind, Except.bind]

/-- C4 amended. `simulate_arb(d, ax, ay, bx, by, sign)` checks its inputs in
the order the code runs them: pool construction first (`InvalidReserves` if
any reserve ≤ 0), then exact price equality (`NoArbitrage`), then — inside
the first swap — the amount (`InvalidAmount` if `d ≤ 0`); on positive
reserves, unequal prices and `d > 0` it returns a value (the sign-multiplied
profit). -/
theorem C4_simulate_arb_cases (d ax ay bx by_ s : ℚ) :
    ((ax ≤ 0 ∨ ay ≤ 0 ∨ bx ≤ 0 ∨ by_ ≤ 0) →
      simulate_arb d ax ay bx by_ s = Except.error Err.invalidReserves) ∧
    (0 < ax → 0 < ay → 0 < bx → 0 < by_ → ay/ax = by_/bx →
      simulate_arb d ax ay bx by_ s = Except.error Err.noArbitrage) ∧
    (0 < ax → 0 < ay → 0 < bx → 0 < by_ → ay/ax ≠ by_/bx → d ≤ 0 →
      simulate_arb d ax ay bx by_ s = Except.error Err.invalidAmount) ∧
    (0 < ax → 0 < ay → 0 < bx → 0 < by_ → ay/ax ≠ by_/bx → 0 < d →
      ∃ profit, simulate_arb d ax ay bx by_ s = Except.ok profit) := by
  refine ⟨?_, ?_, ?_, ?_⟩
  · intro h
    by_cases hA : ax ≤ 0 ∨ ay ≤ 0
    · simp [simulate_arb, UniswapPool.init, hA, Bind.bind, Except.bind]
    · have hB : bx ≤ 0 ∨ by_ ≤ 0 := by tauto
      simp [simulate_arb, UniswapPool.init, hA, hB, Bind.bind, Except.bind]
  · intro hax hay hbx hby heq
    simp [simulate_arb, init_ok ax ay hax hay, init_ok bx by_ hbx hby,
      Bind.bind, Except.bind, heq]
  · intro hax hay hbx hby hne hd
    rcases lt_trichotomy (ay/ax) (by_/bx) with hlt | heq | hgt
    · simp [simulate_arb, init_ok ax ay hax hay, init_ok bx by_ hbx hby,
        Bind.bind, Except.bind, hlt, not_lt.mpr hlt.le, UniswapPool.swap, hd]
    · exact absurd heq hne
    · simp [simulate_arb, init_ok ax ay hax hay, init_ok bx by_ hbx hby,
        Bind.bind, Except.bind, hgt, not_lt.mpr hgt.le, UniswapPool.swap, hd]
  · intro hax hay hbx hby hne hd
    rcases lt_trichotomy (ay/ax) (by_/bx) with hlt | heq | hgt
    · have ho1 : 0 < UniswapPool.output ⟨ax, ay, ax * ay, 3/1000⟩ .ETH d :=
        output_pos _ _ d hax hay rfl (by norm_num) hd
      simp only [simulate_arb, init_ok ax ay hax hay, init_ok bx by_ hbx hby,
        Bind.bind, Except.bind, swap_ok _ .ETH d hd]
      simp only [hlt, gt_iff_lt, if_true, if_pos hlt]
      rw [swap_ok _ .DAI _ ho1]
      exact ⟨_, rfl⟩
    · exact absurd heq hne
    · have ho1 : 0 < UniswapPool.output ⟨bx, by_, bx * by_, 3/1000⟩ .ETH d :=
        output_pos _ _ d hbx hby rfl (by norm_num) hd
      simp only [simulate_arb, init_ok ax ay hax hay, init_ok bx by_ hbx hby,
        Bind.bind, Except.bind, swap_ok _ .ETH d hd]
      simp only [hgt, gt_iff_lt, not_lt.mpr hgt.le, if_false, if_pos hgt]
      rw [swap_ok _ .DAI _ ho1]
      exact ⟨_, rfl⟩

/-- Witness for C4 (amended): each of the four branches realized at a
concrete input. -/
theorem C4_simulate_arb_cases_witness :
    simulate_arb 1 (-1) 1 1 1 1 = Except.error Err.invalidReserves ∧
    simulate_arb 1 1 1 1 1 1 = Except.error Err.noArbitrage ∧
    simulate_arb (-1) 8000000 4000 7500000 5000 1 =
      Except.error Err.invalidAmount ∧
    returnsValue (simulate_arb 1 8000000 4000 7500000 5000 1) = true := by
  refine ⟨(C4_simulate_arb_cases 1 (-1) 1 1 1 1).1 (by norm_num),
          (C4_simulate_arb_cases 1 1 1 1 1 1).2.1
            (by norm_num) (by norm_num) (by norm_num) (by norm_num) (by norm_num),
          (C4_simulate_arb_cases (-1) 8000000 4000 7500000 5000 1).2.2.1
            (by norm_num) (by norm_num) (by norm_num) (by norm_num)
            (by norm_num) (by norm_num), ?_⟩
  obtain ⟨pr, hpr⟩ :=
    (C4_simulate_arb_cases 1 8000000 4000 7500000 5000 1).2.2.2
      (by norm_num) (by norm_num) (by norm_num) (by norm_num)
      (by norm_num) (by norm_num)
  rw [hpr]
  rfl

/-! ### C8: the search is symmetric in which snapshot is called A or B -/

/-- The objective `simulate_arb` is symmetric under exchanging the two reserve snapshots:
both orderings route the trade through the cheaper pool first, so they
compute the very same composition of swaps (and the same errors). -/
lemma simulate_arb_comm (dy ax ay bx by_ s : ℚ) :
    simulate_arb dy bx by_ ax ay s = simulate_arb dy ax ay bx by_ s := by
  by_cases hA : ax ≤ 0 ∨ ay ≤ 0 <;> by_cases hB : bx ≤ 0 ∨ by_ ≤ 0
  · simp [simulate_arb, UniswapPool.init, hA, hB, Bind.bind, Except.bind]
  · simp [simulate_arb, UniswapPool.init, hA, hB, Bind.bind, Except.bind]
  · simp [simulate_arb, UniswapPool.init, hA, hB, Bind.bind, Except.bind]
  · rcases lt_trichotomy (ay/ax) (by_/bx) with h | h | h
    · simp [simulate_arb, UniswapPool.init, hA, hB, Bind.bind, Except.bind,
        h, not_lt.mpr h.le]
    · simp [simulate_arb, UniswapPool.init, hA, hB, Bind.bind, Except.bind, h]
    · simp [simulate_arb, UniswapPool.init, hA, hB, Bind.bind, Except.bind,
        h, not_lt.mpr h.le]

/-- C8. For valid positive reserves with unequal prices, running the search
with the snapshots exchanged yields the same found-flag, trade size and
profit for every (deterministic) optimizer; only the buy/sell direction
labels are interchanged.  The search bound, midpoint and objective are
invariant under the exchange, so the optimizer receives identical inputs. -/
theorem C8_label_symmetry (opt : Optimizer) (ax ay bx by_ : ℚ)
    (hax : 0 < ax) (hay : 0 < ay) (hbx : 0 < bx) (hby : 0 < by_)
    (hne : ay/ax ≠ by_/bx) :
    optimal_profit opt bx by_ ax ay =
      Except.map (fun r => { r with buy := r.sell, sell := r.buy })
        (optimal_profit opt ax ay bx by_) := by
  have hobj : (fun d => simulate_arb d bx by_ ax ay (-1)) =
      (fun d => simulate_arb d ax ay bx by_ (-1)) :=
    funext fun d => simulate_arb_comm d ax ay bx by_ (-1)
  have h1 : ¬(ax ≤ 0 ∨ ay ≤ 0 ∨ bx ≤ 0 ∨ by_ ≤ 0) := by
    push_neg
    exact ⟨hax, hay, hbx, hby⟩
  have h2 : ¬(bx ≤ 0 ∨ by_ ≤ 0 ∨ ax ≤ 0 ∨ ay ≤ 0) := by
    push_neg
    exact ⟨hbx, hby, hax, hay⟩
  simp only [optimal_profit, h1, h2, hne, Ne.symm hne, if_false, hobj]
  rw [show (ax + ay) / (bx + by_ + (ax + ay)) * |bx - by_| +
        (bx + by_) / (bx + by_ + (ax + ay)) * |ax - ay| =
      (bx + by_) / (ax + ay + (bx + by_)) * |ax - ay| +
        (ax + ay) / (ax + ay + (bx + by_)) * |bx - by_| from by ring]
  rcases lt_trichotomy (ay/ax) (by_/bx) with h | h | h
  · simp only [gt_iff_lt, h, not_lt.mpr h.le, if_true, if_false]
    split_ifs <;> simp [Except.map]
  · exact absurd h hne
  · simp only [gt_iff_lt, h, not_lt.mpr h.le, if_true, if_false]
    split_ifs <;> simp [Except.map]

/-- Witness for C8 at the reserves `(8000000, 4000)` / `(7500000, 5000)`
with a concrete optimizer. -/
theorem C8_label_symmetry_witness :
    optimal_profit (fun _ x0 _ _ => ⟨x0, 0⟩) 7500000 5000 8000000 4000 =
      Except.map (fun r => { r with buy := r.sell, sell := r.buy })
        (optimal_profit (fun _ x0 _ _ => ⟨x0, 0⟩) 8000000 4000 7500000 5000) :=
  C8_label_symmetry (fun _ x0 _ _ => ⟨x0, 0⟩) 8000000 4000 7500000 5000
    (by norm_num) (by norm_num) (by norm_num) (by norm_num) (by norm_num)

/-! ### C9: a round trip through the fee loses value -/

/-- Round-trip algebra: if `o1` is the constant-product output (after fee
`f`) of feeding `d` into the side with reserve `Y`, the pool moves to
reserves `(X1, Y1)`, and `o2` is the output of feeding `o1` back into the
mutated pool, then `o2 < d`. -/
lemma roundtrip_core (X Y d f o1 X1 Y1 o2 : ℚ)
    (hX : 0 < X) (hY : 0 < Y) (hd : 0 < d) (hf0 : 0 < f) (hf1 : f < 1)
    (ho1 : o1 = X - X * Y / (Y + (d - f * d)))
    (hX1 : X1 = X - o1) (hY1 : Y1 = Y + d)
    (ho2 : o2 = Y1 - X1 * Y1 / (X1 + (o1 - f * o1))) :
    o2 < d := by
  have hE : 0 < d - f * d := by nlinarith
  have hD1 : 0 < Y + (d - f * d) := by linarith
  have ho1' : o1 = X * (d - f * d) / (Y + (d - f * d)) := by
    rw [ho1]
    field_simp
    ring
  have ho1pos : 0 < o1 := by
    rw [ho1']
    positivity
  have hX1' : X1 = X * Y / (Y + (d - f * d)) := by
    rw [hX1, ho1]
    ring
  have hX1pos : 0 < X1 := by
    rw [hX1']
    positivity
  have h1f : 0 < 1 - f := by linarith
  have hden2pos : 0 < X1 + (o1 - f * o1) := by nlinarith
  have hdenpos : 0 < Y + (1 - f)^2 * d := by
    have := mul_nonneg (sq_nonneg (1 - f)) hd.le
    linarith
  have hkey : o2 = (Y + d) * ((1 - f)^2 * d) / (Y + (1 - f)^2 * d) := by
    rw [ho2, hY1, hX1', ho1']
    rw [show X * Y / (Y + (d - f * d)) +
        (X * (d - f * d) / (Y + (d - f * d)) -
          f * (X * (d - f * d) / (Y + (d - f * d)))) =
      X * (Y + (1 - f)^2 * d) / (Y + (d - f * d)) from by field_simp; ring]
    field_simp
    ring
  rw [hkey, div_lt_iff hdenpos]
  have h2f : 0 < 2 - f := by linarith
  nlinarith [mul_pos (mul_pos hY hd) (mul_pos hf0 h2f)]

/-- C9. For every pool with positive reserves, `K = X*Y` and fee rate in
`(0, 1)`, swapping `d > 0` units of either token in and then swapping the
entire output back into the mutated pool returns strictly less than `d`. -/
theorem C9_roundtrip_loss (p : UniswapPool) (t : Token) (d o1 o2 : ℚ)
    (p1 p2 : UniswapPool)
    (hX : 0 < p.X) (hY : 0 < p.Y) (hK : p.K = p.X * p.Y)
    (hf0 : 0 < p.swap_fee) (hf1 : p.swap_fee < 1) (hd : 0 < d)
    (h1 : p.swap t d = Except.ok (o1, p1))
    (h2 : p1.swap t.other o1 = Except.ok (o2, p2)) :
    o2 < d := by
  cases t with
  | ETH =>
    rw [swap_ok p .ETH d hd] at h1
    simp only [Except.ok.injEq, Prod.mk.injEq] at h1
    obtain ⟨ho1, hp1⟩ := h1
    subst ho1
    subst hp1
    have ho1pos : 0 < p.output .ETH d := output_pos p .ETH d hX hY hK hf1 hd
    simp only [Token.other] at h2
    rw [swap_ok _ .DAI _ ho1pos] at h2
    simp only [Except.ok.injEq, Prod.mk.injEq] at h2
    obtain ⟨ho2, -⟩ := h2
    subst ho2
    refine roundtrip_core p.X p.Y d p.swap_fee _ (p.X - p.output .ETH d)
      (p.Y + d) _ hX hY hd hf0 hf1 ?_ rfl rfl ?_
    · simp only [UniswapPool.output]
      rw [hK]
    · simp only [UniswapPool.output]
  | DAI =>
    rw [swap_ok p .DAI d hd] at h1
    simp only [Except.ok.injEq, Prod.mk.injEq] at h1
    obtain ⟨ho1, hp1⟩ := h1
    subst ho1
    subst hp1
    have ho1pos : 0 < p.output .DAI d := output_pos p .DAI d hX hY hK hf1 hd
    simp only [Token.other] at h2
    rw [swap_ok _ .ETH _ ho1pos] at h2
    simp only [Except.ok.injEq, Prod.mk.injEq] at h2
    obtain ⟨ho2, -⟩ := h2
    subst ho2
    refine roundtrip_core p.Y p.X d p.swap_fee _ (p.Y - p.output .DAI d)
      (p.X + d) _ hY hX hd hf0 hf1 ?_ rfl rfl ?_
    · simp only [UniswapPool.output]
      rw [hK, mul_comm p.X p.Y]
    · simp only [UniswapPool.output]
      ring

/-- Witness for C9: on the pool `(10, 10)`, `1` ETH in buys
`9970/10997` DAI, and selling that DAI back returns `10934099/10994009 < 1`
ETH. -/
theorem C9_roundtrip_loss_witness :
    (10934099/10994009 : ℚ) < 1 :=
  C9_roundtrip_loss ⟨10, 10, 100, 3/1000⟩ Token.ETH 1 (9970/10997)
    (10934099/10994009)
    ⟨100000/10997, 11, 1100000/10997, 3/1000⟩
    ⟨109970/10997, 110000000/10994009,
      109970/10997 * (110000000/10994009), 3/1000⟩
    (by norm_num) (by norm_num) (by norm_num) (by norm_num) (by norm_num)
    (by norm_num)
    (by norm_num [UniswapPool.swap, UniswapPool.output])
    (by norm_num [UniswapPool.swap, UniswapPool.output, Token.other])

/-! ### C10: zero quote amount hits the unguarded ratio division -/

/-- C10. For every pool and every base amount, `add_liquidity`/
`remove_liquidity` with quote amount `0` fail with `ZeroDivisionError`
(not `LiquidityRatioMismatch` or `InvalidAmount`): the ratio computation
`X/Y` divides by the quote amount before positivity is checked. -/
theorem C10_zero_quote_amount (p : UniswapPool) (dBase : ℚ) :
    p.add_liquidity dBase 0 = Except.error Err.zeroDivision ∧
    p.remove_liquidity dBase 0 = Except.error Err.zeroDivision := by
  constructor <;>
    simp [UniswapPool.add_liquidity, UniswapPool.remove_liquidity, pydiv,
      Bind.bind, Except.bind]

/-! ### C6: the derived search upper bound matches the spec's closed form -/

/-- C6. For strictly positive reserves, the code's search upper bound equals
the spec's closed form
`(totalB/total)*|baseA-quoteA| + (totalA/total)*|baseB-quoteB|`, and at the
reserves `(8000000, 4000, 7500000, 5000)` it evaluates to the literal
rational `119999960000/15509`. -/
theorem C6_upper_bound_closed_form (ax ay bx by_ : ℚ)
    (hax : 0 < ax) (hay : 0 < ay) (hbx : 0 < bx) (hby : 0 < by_) :
    upper_bound ax ay bx by_ = spec_upper_bound ax ay bx by_ ∧
    upper_bound 8000000 4000 7500000 5000 = 119999960000/15509 := by
  refine ⟨rfl, ?_⟩
  rw [upper_bound]
  rw [show |(8000000 : ℚ) - 4000| = 7996000 by rw [abs_of_pos] <;> norm_num]
  rw [show |(7500000 : ℚ) - 5000| = 7495000 by rw [abs_of_pos] <;> norm_num]
  norm_num

/-- Witness for C6 at the reserves `(8000000, 4000, 7500000, 5000)`. -/
theorem C6_upper_bound_closed_form_witness :
    upper_bound 8000000 4000 7500000 5000 =
      spec_upper_bound 8000000 4000 7500000 5000 :=
  (C6_upper_bound_closed_form 8000000 4000 7500000 5000
    (by norm_num) (by norm_num) (by norm_num) (by norm_num)).1

/-! ### C7: positivity of the search upper bound -/

/-- C7 counterexample. At the strictly positive reserves `(1, 1, 1, 1)` the
derived upper bound is `0`, so it is not strictly positive for *all*
strictly positive reserves as the claim states. -/
theorem C7_counterexample :
    (0 : ℚ) < 1 ∧ upper_bound 1 1 1 1 = 0 := by
  norm_num [upper_bound]

/-- C7 amended. For all strictly positive reserves the derived upper bound
is nonnegative (and, being a rational, finite), and it is strictly positive
whenever the two pool prices differ — the only situation in which
`optimal_profit` uses it. -/
theorem C7_upper_bound_pos (ax ay bx by_ : ℚ)
    (hax : 0 < ax) (hay : 0 < ay) (hbx : 0 < bx) (hby : 0 < by_) :
    0 ≤ upper_bound ax ay bx by_ ∧
    (ay/ax ≠ by_/bx → 0 < upper_bound ax ay bx by_) := by
  have htot : 0 < ax + ay + (bx + by_) := by linarith
  have hb : 0 < (bx + by_) / (ax + ay + (bx + by_)) := by positivity
  have ha : 0 < (ax + ay) / (ax + ay + (bx + by_)) := by positivity
  constructor
  · rw [upper_bound]
    have := abs_nonneg (ax - ay)
    have := abs_nonneg (bx - by_)
    positivity
  · intro hne
    have hkey : ax ≠ ay ∨ bx ≠ by_ := by
      by_contra hcon
      push_neg at hcon
      obtain ⟨h1, h2⟩ := hcon
      apply hne
      rw [h1, h2, div_self (by linarith : ay ≠ 0), div_self (by linarith : by_ ≠ 0)]
    rw [upper_bound]
    rcases hkey with h | h
    · have h1 : 0 < |ax - ay| := abs_pos.mpr (sub_ne_zero.mpr h)
      have h2 : 0 ≤ (ax + ay) / (ax + ay + (bx + by_)) * |bx - by_| :=
        mul_nonneg ha.le (abs_nonneg _)
      nlinarith [mul_pos hb h1]
    · have h1 : 0 < |bx - by_| := abs_pos.mpr (sub_ne_zero.mpr h)
      have h2 : 0 ≤ (bx + by_) / (ax + ay + (bx + by_)) * |ax - ay| :=
        mul_nonneg hb.le (abs_nonneg _)
      nlinarith [mul_pos ha h1]

/-- Witness for C7 (amended) at the reserves `(8000000, 4000, 7500000, 5000)`,
whose prices differ. -/
theorem C7_upper_bound_pos_witness :
    0 ≤ upper_bound 8000000 4000 7500000 5000 ∧
    ((4000 : ℚ)/8000000 ≠ (5000 : ℚ)/7500000 →
      0 < upper_bound 8000000 4000 7500000 5000) :=
  C7_upper_bound_pos 8000000 4000 7500000 5000
    (by norm_num) (by norm_num) (by norm_num) (by norm_num)

/-- Witness for C2 at the pool `(10, 10)`, swapping `1` DAI. -/
theorem C2_invariant_increases_witness :
    (100 : ℚ) < (10 + 1) * (10 - (10 - 100 / (10 + (1 - 3/1000 * 1)))) :=
  ((C2_invariant_increases ⟨10, 10, 100, 3/1000⟩ Token.DAI 1
      (UniswapPool.output ⟨10, 10, 100, 3/1000⟩ Token.DAI 1)
      ⟨10 + 1, 10 - UniswapPool.output ⟨10, 10, 100, 3/1000⟩ Token.DAI 1,
        (10 + 1) * (10 - UniswapPool.output ⟨10, 10, 100, 3/1000⟩ Token.DAI 1),
        3/1000⟩
      (by norm_num) (by norm_num) (by norm_num) (by norm_num) (by norm_num)
      (by simp [UniswapPool.swap])).1).trans_eq
    (by simp [UniswapPool.output])
